import Mathlib

/-!
Verification development for the tinyclaw message-routing core.

The definitions below are shallow embeddings of the TypeScript source:
  * the SQLite-backed message queue (src/lib/db.ts): rows of the `messages`
    table, `claimNextMessage`, `failMessage`, `recoverStaleMessages`;
  * the router (src/lib/routing.ts): `parseAgentRouting`,
    `extractTeammateMentions`, `isTeammate`, `getNextPipelineAgent`,
    `getPipelineLoopTarget`, `filterMentionsForPipeline`;
  * the long-response handler (src/lib/response.ts): `handleLongResponse`;
  * the conversation bookkeeping of the queue processor
    (src/queue-processor.ts together with src/lib/conversation.ts):
    message-count/pending counters and the strict/non-strict pipeline
    enforcement step.

Machine integers are modelled as Int (timestamps) and Nat (counters, ids);
JavaScript `Record<string, T>` objects are association lists in insertion
order; SQL `NULL`able columns are `Option`s.
-/

set_option maxRecDepth 2000

namespace Tinyclaw

/-! ## Queue store (src/lib/db.ts) -/

/-- `MAX_RETRIES` from src/lib/db.ts. -/
def MAX_RETRIES : Nat := 5

/-- Status domain of the `messages.status` TEXT column. -/
inductive MsgStatus where
  | pending
  | processing
  | completed
  | dead
deriving DecidableEq, Repr

/-- A row of the `messages` table (interface `DbMessage` in src/lib/db.ts).
The payload columns `channel`, `sender`, `sender_id`, `message`, `files`,
`conversation_id` and `from_agent` are never read or written by the queue
operations the claims concern, so they are omitted from the embedding. -/
structure DbMessage where
  id : Nat
  message_id : String
  agent : Option String
  status : MsgStatus
  retry_count : Nat
  last_error : Option String
  created_at : Int
  updated_at : Int
  claimed_by : Option String
deriving DecidableEq, Repr

/-- The `messages` table. -/
abbrev MessagesTable := List DbMessage

/-- The WHERE clause of the `claimSelect` prepared statement:
`status = 'pending' AND (agent = ? OR (agent IS NULL AND ? = 'default'))`. -/
def claimMatches (agentId : String) (r : DbMessage) : Bool :=
  r.status == .pending &&
    (r.agent == some agentId || (r.agent == none && agentId == "default"))

/-- Strict comparison used by the `ORDER BY created_at ASC LIMIT 1` of
`claimSelect`: SQLite scans the `(status, agent, created_at)` index (or the
table in rowid order), so among rows with equal `created_at` the lowest
rowid is returned; the selected row is the minimum in the lexicographic
`(created_at, id)` order. -/
def claimBetter (a b : DbMessage) : Bool :=
  a.created_at < b.created_at || (a.created_at == b.created_at && a.id < b.id)

/-- Fold step selecting the minimal matching row (keeps the earlier row on
a full tie). -/
def claimPick (best : Option DbMessage) (r : DbMessage) : Option DbMessage :=
  match best with
  | none => some r
  | some b => if claimBetter r b then some r else some b

/-- The `claimSelect` prepared statement of src/lib/db.ts. -/
def claimSelect (agentId : String) (db : MessagesTable) : Option DbMessage :=
  (db.filter (claimMatches agentId)).foldl claimPick none

/-- `claimNextMessage` (src/lib/db.ts): one atomic transaction running
`claimSelect` then `claimUpdate` (`SET status = 'processing',
claimed_by = ?, updated_at = ? WHERE id = ?`); the returned object is the
selected row overridden with `status: 'processing'` and `claimed_by`. -/
def claimNextMessage (agentId : String) (now : Int) (db : MessagesTable) :
    Option DbMessage × MessagesTable :=
  match claimSelect agentId db with
  | none => (none, db)
  | some row =>
    (some { row with status := .processing, claimed_by := some agentId },
     db.map fun r =>
       if r.id == row.id then
         { r with status := .processing, claimed_by := some agentId, updated_at := now }
       else r)

/-- `failMessage` (src/lib/db.ts): `failSelect` fetches the row's
`retry_count`; if the row is missing the transaction returns with no
update; otherwise `failUpdate` sets the new status, incremented
retry count, the error, clears `claimed_by` and bumps `updated_at`. -/
def failMessage (rowId : Nat) (error : String) (now : Int) (db : MessagesTable) :
    MessagesTable :=
  match db.find? (fun r => r.id == rowId) with
  | none => db
  | some msg =>
    let newCount := msg.retry_count + 1
    let newStatus : MsgStatus := if MAX_RETRIES ≤ newCount then .dead else .pending
    db.map fun r =>
      if r.id == rowId then
        { r with status := newStatus, retry_count := newCount, last_error := some error,
                 claimed_by := none, updated_at := now }
      else r

/-- The WHERE clause of the `recoverStaleMessages` prepared statement:
`status = 'processing' AND updated_at < ?` with the cutoff `now − thresholdMs`. -/
def staleMatches (cutoff : Int) (r : DbMessage) : Bool :=
  r.status == .processing && r.updated_at < cutoff

/-- `recoverStaleMessages` (src/lib/db.ts): a single UPDATE moving every
stale `processing` row to `dead` when `retry_count + 1 >= 5`, else to
`pending`, incrementing `retry_count`, recording the recovery marker in
`last_error`, clearing `claimed_by` and bumping `updated_at`; returns
`result.changes`, the number of rows matched by the UPDATE. -/
def recoverStaleMessages (now thresholdMs : Int) (db : MessagesTable) :
    Nat × MessagesTable :=
  let cutoff := now - thresholdMs
  ((db.filter (staleMatches cutoff)).length,
   db.map fun r =>
     if staleMatches cutoff r then
       { r with status := if MAX_RETRIES ≤ r.retry_count + 1 then .dead else .pending,
                retry_count := r.retry_count + 1,
                last_error := some "Recovered from stale processing state",
                claimed_by := none, updated_at := now }
     else r)

/-! ## Configuration model (src/lib/types.ts, src/lib/config.ts) -/

/-- `AgentConfig` (src/lib/types.ts); the optional prompt fields are never
consulted by the routing code and are omitted. -/
structure AgentConfig where
  name : String
  provider : String
  model : String
  working_directory : String
deriving DecidableEq, Repr

/-- `PipelineConfig` (src/lib/types.ts). The source reads the optional
fields as `pipeline.strict` (truthiness) and `pipeline.maxLoops ?? 0`, so
an absent field is identified with `false` / `0` here. -/
structure PipelineConfig where
  sequence : List String
  strict : Bool := false
  maxLoops : Nat := 0
deriving DecidableEq, Repr

/-- `TeamConfig` (src/lib/types.ts). -/
structure TeamConfig where
  name : String
  agents : List String
  leader_agent : String
  pipeline : Option PipelineConfig := none
deriving DecidableEq, Repr

/-- A JavaScript `Record<string, α>` object: an association list in
property-insertion order (agent/team ids are non-numeric strings, for which
JS guarantees insertion order). -/
abbrev ConfigMap (α : Type) := List (String × α)

/-- Property access `m[k]` on a `Record<string, α>`. -/
def objGet {α : Type} (m : ConfigMap α) (k : String) : Option α :=
  (m.find? (fun e => e.1 == k)).map (·.2)

/-! ## Router (src/lib/routing.ts) -/

/-- The JavaScript `\s` character class (also the character set trimmed by
`String.prototype.trim`). -/
def isJsSpace (c : Char) : Bool :=
  c == ' ' || c == '\t' || c == '\n' || c == '\r' || c == '\u000b' || c == '\u000c' ||
  c == '\u00a0' || c == '\ufeff' || c == '\u1680' ||
  (0x2000 ≤ c.val && c.val ≤ 0x200a) || c == '\u2028' || c == '\u2029' ||
  c == '\u202f' || c == '\u205f' || c == '\u3000'

/-- `String.prototype.trim` on a character list. -/
def jsTrimList (cs : List Char) : List Char :=
  ((cs.dropWhile isJsSpace).reverse.dropWhile isJsSpace).reverse

/-- `String.prototype.trim`. -/
def jsTrim (s : String) : String := String.mk (jsTrimList s.data)

/-- `String.prototype.toLowerCase` on a character list. The identifiers
this code lowercases are ASCII; `Char.toLower` maps exactly the ASCII
uppercase letters. -/
def lowerList (cs : List Char) : List Char := cs.map Char.toLower

/-- `String.prototype.toLowerCase`. -/
def lowerStr (s : String) : String := String.mk (lowerList s.data)

/-- `Array.prototype.indexOf` on an array of strings: index of the first
occurrence, `-1` when absent. -/
def jsIndexOf (l : List String) (x : String) : Int :=
  match l with
  | [] => -1
  | y :: ys =>
    if y == x then 0
    else
      let r := jsIndexOf ys x
      if r < 0 then -1 else r + 1

/-- Result of `parseAgentRouting`; the source omits the `isTeam` property
unless it is `true`, which is identified with `isTeam = false` here. -/
structure RouteResult where
  agentId : String
  message : String
  isTeam : Bool := false
deriving DecidableEq, Repr

/-- The optional `(\[[^\]]*\]:\s*)?` group of the routing regex: a
bracketed channel tag, a colon, and the (greedy) run of whitespace after
it; returns the matched prefix text and the remainder. -/
def parseBracketTag (cs : List Char) : Option (List Char × List Char) :=
  match cs with
  | '[' :: rest =>
    let inside := rest.takeWhile (fun c => c != ']')
    match rest.dropWhile (fun c => c != ']') with
    | ']' :: ':' :: r2 =>
      let ws := r2.takeWhile isJsSpace
      some ('[' :: (inside ++ ']' :: ':' :: ws), r2.dropWhile isJsSpace)
    | _ => none
  | _ => none

/-- The anchored match of `/^(\[[^\]]*\]:\s*)?@(\S+)(?:\s+([\s\S]*))?$/`
(src/lib/routing.ts line 175): returns the prefix group (empty when
absent), the `@`-token, and the body group (empty when absent; `match[3]`
being `undefined` and `''` are indistinguishable downstream, both producing
`''` via `match[3] || ''`). A string starting with `[` whose bracket tag
does not complete cannot match, since without the optional group the first
character must be `@`. -/
def parseAfterTag (pfx : List Char) (r0 : List Char) :
    Option (List Char × List Char × List Char) :=
  match r0 with
  | '@' :: r1 =>
    let token := r1.takeWhile (fun c => !isJsSpace c)
    if token.isEmpty then none
    else
      let rest := r1.dropWhile (fun c => !isJsSpace c)
      some (pfx, token, rest.dropWhile isJsSpace)
  | _ => none

def parseRouteMatch (cs : List Char) :
    Option (List Char × List Char × List Char) :=
  match parseBracketTag cs with
  | some (p, r) => parseAfterTag p r
  | none => parseAfterTag [] cs

/-- `parseAgentRouting` (src/lib/routing.ts lines 169-215). -/
def parseAgentRouting (rawMessage : String) (agents : ConfigMap AgentConfig)
    (teams : ConfigMap TeamConfig) : RouteResult :=
  match parseRouteMatch rawMessage.data with
  | none => { agentId := "default", message := rawMessage }
  | some (pfx, token, body) =>
    let candidateId := String.mk (lowerList token)
    let message := String.mk (jsTrimList (pfx ++ body))
    let resolved : Option (String × Bool) :=
      match objGet agents candidateId with
      | some _ => some (candidateId, false)
      | none =>
        match objGet teams candidateId with
        | some t => some (t.leader_agent, true)
        | none =>
          match agents.find? (fun e => lowerStr e.2.name == candidateId) with
          | some e => some (e.1, false)
          | none =>
            match teams.find? (fun e => lowerStr e.2.name == candidateId) with
            | some e => some (e.2.leader_agent, true)
            | none => none
    match resolved with
    | none => { agentId := "default", message := rawMessage }
    | some (id, isTeam) =>
      if message == "" && pfx.isEmpty then
        { agentId := id, message := rawMessage, isTeam := isTeam }
      else
        { agentId := id, message := message, isTeam := isTeam }

/-- `isTeammate` (src/lib/routing.ts lines 20-49). -/
def isTeammate (mentionedId currentAgentId teamId : String)
    (teams : ConfigMap TeamConfig) (agents : ConfigMap AgentConfig) : Bool :=
  match objGet teams teamId with
  | none => false
  | some team =>
    if mentionedId == currentAgentId then false
    else if !team.agents.contains mentionedId then false
    else if (objGet agents mentionedId).isNone then false
    else true

/-- A teammate mention produced by `extractTeammateMentions`. -/
structure Mention where
  teammateId : String
  message : String
deriving DecidableEq, Repr

/-- One attempted match of the tag regex `/\[@([^\]]+?):\s*([\s\S]*?)\]/`
at the current position: `[@`, then the lazily-matched target group up to
the first `:` (nonempty, no `]` before it), `:`, the greedy whitespace,
then the lazily-matched body group up to the first `]`. Returns the two
groups and the remainder after the closing `]`. -/
def tryTagTail (rest : List Char) : Option (List Char × List Char × List Char) :=
  let g1 := rest.takeWhile (fun c => c != ':' && c != ']')
  match rest.dropWhile (fun c => c != ':' && c != ']') with
  | ':' :: r2 =>
    if g1.isEmpty then none
    else
      let r2' := r2.dropWhile isJsSpace
      let g2 := r2'.takeWhile (fun c => c != ']')
      match r2'.dropWhile (fun c => c != ']') with
      | ']' :: rest' => some (g1, g2, rest')
      | _ => none
  | _ => none

/-- One attempted match of the tag regex at the current position,
dispatching on the literal `[@` opener (see `tryTagTail`). -/
def tryTag (cs : List Char) : Option (List Char × List Char × List Char) :=
  match cs with
  | c1 :: c2 :: rest => if c1 = '[' ∧ c2 = '@' then tryTagTail rest else none
  | _ => none

/-- The non-overlapping leftmost scan shared by `replace(tagRegex, '')` and
the `tagRegex.exec` loop in `extractTeammateMentions`: returns the list of
`(targets group, body group)` pairs of every match in order, together with
the text with all matches removed. The fuel argument only bounds the
recursion; every successful `tryTag` consumes at least one character, so
`fuel = cs.length` can never be exhausted before the scan finishes. -/
def scanTagsFuel : Nat → List Char → List (List Char × List Char) × List Char
  | 0, cs => ([], cs)
  | _ + 1, [] => ([], [])
  | fuel + 1, c :: cs =>
    match tryTag (c :: cs) with
    | some (g1, g2, rest) =>
      let p := scanTagsFuel fuel rest
      ((g1, g2) :: p.1, p.2)
    | none =>
      let p := scanTagsFuel fuel cs
      (p.1, c :: p.2)

/-- All `[@…: …]` tag matches of a response and the tag-stripped text. -/
def scanTags (cs : List Char) : List (List Char × List Char) × List Char :=
  scanTagsFuel cs.length cs

/-- `String.prototype.split(',')` on a character list (an empty input
yields the single empty segment, as in JavaScript). -/
def splitCommaAux : List Char → List (List Char)
  | [] => [[]]
  | c :: cs =>
    if c = ',' then [] :: splitCommaAux cs
    else
      match splitCommaAux cs with
      | h :: t => (c :: h) :: t
      | [] => [[c]]

/-- The comma-separated candidate ids of one tag:
`tagMatch[1].toLowerCase().split(',').map(id => id.trim()).filter(Boolean)`. -/
def tagCandidateIds (g1 : List Char) : List String :=
  (((splitCommaAux (lowerList g1)).map jsTrimList).filter
    (fun s => !s.isEmpty)).map String.mk

/-- The inner loop of `extractTeammateMentions` over one tag's candidate
ids: appends a mention for every unseen valid teammate and records it as
seen. The accumulator is `(results so far, seen ids)`. -/
def addTagCandidates (currentAgentId teamId : String)
    (teams : ConfigMap TeamConfig) (agents : ConfigMap AgentConfig)
    (fullMessage : String) (cands : List String)
    (acc : List Mention × List String) : List Mention × List String :=
  cands.foldl
    (fun acc candidateId =>
      if !acc.2.contains candidateId &&
          isTeammate candidateId currentAgentId teamId teams agents then
        (acc.1 ++ [⟨candidateId, fullMessage⟩], candidateId :: acc.2)
      else acc)
    acc

/-- `extractTeammateMentions` (src/lib/routing.ts lines 55-89). -/
def extractTeammateMentions (response : String) (currentAgentId teamId : String)
    (teams : ConfigMap TeamConfig) (agents : ConfigMap AgentConfig) :
    List Mention :=
  let scanned := scanTags response.data
  let sharedContext := String.mk (jsTrimList scanned.2)
  (scanned.1.foldl
    (fun acc tag =>
      let directMessage := String.mk (jsTrimList tag.2)
      let fullMessage :=
        if sharedContext == "" then directMessage
        else sharedContext ++ "\n\n------\n\nDirected to you:\n" ++ directMessage
      addTagCandidates currentAgentId teamId teams agents fullMessage
        (tagCandidateIds tag.1) acc)
    ([], [])).1

/-- `getNextPipelineAgent` (src/lib/routing.ts lines 102-106). -/
def getNextPipelineAgent (pipeline : PipelineConfig) (currentAgentId : String) :
    Option String :=
  let idx := jsIndexOf pipeline.sequence currentAgentId
  if idx < 0 ∨ (pipeline.sequence.length : Int) - 1 ≤ idx then none
  else pipeline.sequence[idx.toNat + 1]?

/-- `getPipelineLoopTarget` (src/lib/routing.ts lines 112-125). -/
def getPipelineLoopTarget (pipeline : PipelineConfig)
    (currentAgentId targetAgentId : String) (currentLoops : Nat) : Bool :=
  let maxLoops := pipeline.maxLoops
  if maxLoops ≤ 0 ∨ maxLoops ≤ currentLoops then false
  else
    let currentIdx := jsIndexOf pipeline.sequence currentAgentId
    let targetIdx := jsIndexOf pipeline.sequence targetAgentId
    0 < currentIdx && 0 ≤ targetIdx && targetIdx < currentIdx

/-- `filterMentionsForPipeline` (src/lib/routing.ts lines 131-163): keeps a
mention iff its target is the next-in-sequence agent or a permitted
loop-back. -/
def filterMentionsForPipeline (mentions : List Mention)
    (pipeline : PipelineConfig) (currentAgentId : String)
    (currentLoops : Nat) : List Mention :=
  let nextAgent := getNextPipelineAgent pipeline currentAgentId
  mentions.filter
    (fun m =>
      some m.teammateId == nextAgent ||
      getPipelineLoopTarget pipeline currentAgentId m.teammateId currentLoops)

/-! ## Queue processor conversation bookkeeping
(src/queue-processor.ts, src/lib/conversation.ts) -/

/-- `MAX_CONVERSATION_MESSAGES` from src/lib/conversation.ts. -/
def MAX_CONVERSATION_MESSAGES : Nat := 50

/-- Result of the pipeline-enforcement block of `processMessage`
(src/queue-processor.ts lines 271-312): the surviving mention list and the
updated `pipelineStep` / `pipelineLoops` counters. -/
structure PipelineOutcome where
  mentions : List Mention
  pipelineStep : Nat
  pipelineLoops : Nat
deriving DecidableEq, Repr

/-- The pipeline-enforcement block of `processMessage`
(src/queue-processor.ts lines 271-312). In strict mode the extracted
mentions are discarded (`teammateMentions = []`) and, when
`getNextPipelineAgent` yields a next agent and
`conv.totalMessages < conv.maxMessages`, a single auto-routed mention is
synthesized and `pipelineStep` advanced. In non-strict mode the mentions
are filtered, then the loop-back detection walks the surviving mentions
updating `pipelineLoops` / `pipelineStep`. -/
def pipelineEnforce (pipeline : PipelineConfig)
    (agentId originalMessage response : String)
    (totalMessages maxMessages pipelineStep pipelineLoops : Nat)
    (extracted : List Mention) : PipelineOutcome :=
  let currentLoops := pipelineLoops
  if pipeline.strict then
    match getNextPipelineAgent pipeline agentId with
    | some nextAgent =>
      if totalMessages < maxMessages then
        { mentions := [⟨nextAgent,
            "[Original request]:\n" ++ originalMessage ++
            "\n\n[Output from @" ++ agentId ++ "]:\n" ++ response⟩],
          pipelineStep := pipelineStep + 1, pipelineLoops := currentLoops }
      else
        { mentions := [], pipelineStep := pipelineStep, pipelineLoops := currentLoops }
    | none =>
      { mentions := [], pipelineStep := pipelineStep, pipelineLoops := currentLoops }
  else
    let filtered := filterMentionsForPipeline extracted pipeline agentId currentLoops
    filtered.foldl
      (fun acc m =>
        let targetIdx := jsIndexOf pipeline.sequence m.teammateId
        let currentIdx := jsIndexOf pipeline.sequence agentId
        if 0 ≤ targetIdx ∧ 0 ≤ currentIdx ∧ targetIdx < currentIdx then
          { acc with pipelineLoops := currentLoops + 1, pipelineStep := targetIdx.toNat }
        else
          { acc with pipelineStep := acc.pipelineStep + 1 })
      { mentions := filtered, pipelineStep := pipelineStep, pipelineLoops := currentLoops }

/-- The counters of a live `Conversation` (src/lib/types.ts) that govern
the `totalMessages ≤ maxMessages` question: `queued` counts the internal
messages sitting in the SQLite queue for this conversation (the initial
team-routed message included) that have not yet been processed. -/
structure ConvState where
  pending : Int
  totalMessages : Nat
  maxMessages : Nat
  queued : Nat
deriving DecidableEq, Repr

/-- A fresh conversation as built by `processMessage`
(src/queue-processor.ts lines 232-255): `pending = 1` for the initial
message, which is also the one queued message. -/
def initialConvState : ConvState :=
  { pending := 1, totalMessages := 0, maxMessages := MAX_CONVERSATION_MESSAGES,
    queued := 1 }

/-- One completed `processMessage` call on a queued conversation message
(src/queue-processor.ts lines 260-345): the claimed message leaves the
queue, `conv.totalMessages++` records the step, then — under the
conversation lock — when the step produced `mentionCount > 0` mentions and
`conv.totalMessages < conv.maxMessages`, `incrementPending` adds
`mentionCount` and one internal message per mention is enqueued; finally
`decrementPending` (src/lib/conversation.ts) decrements, clamping negative
values to 0. When no message is queued nothing can be claimed and the
state is unchanged. -/
def processConvStep (s : ConvState) (mentionCount : Nat) : ConvState :=
  if s.queued = 0 then s
  else if 0 < mentionCount ∧ s.totalMessages + 1 < s.maxMessages then
    { s with totalMessages := s.totalMessages + 1,
             queued := s.queued - 1 + mentionCount,
             pending :=
               if s.pending + mentionCount - 1 < 0 then 0
               else s.pending + mentionCount - 1 }
  else
    { s with totalMessages := s.totalMessages + 1,
             queued := s.queued - 1,
             pending := if s.pending - 1 < 0 then 0 else s.pending - 1 }

/-- A whole conversation run: fold the processing steps (each annotated
with the number of surviving mentions its agent response produced) from
the fresh conversation. -/
def runConversation (steps : List Nat) : ConvState :=
  steps.foldl processConvStep initialConvState

/-- The routing-fallback chain of `processMessage` (src/queue-processor.ts
lines 102-117): if the routed agent is not configured fall back to
`default`; if `default` is not configured fall back to the first key of
the agents object; if the object is empty there is no agent and the
caller fails the message with `'No agents configured'`. -/
def resolveAgentFallback (agents : ConfigMap AgentConfig)
    (routedAgentId : String) : Option String :=
  let a1 := if (objGet agents routedAgentId).isSome then routedAgentId else "default"
  let a2? : Option String :=
    if (objGet agents a1).isSome then some a1
    else agents.head?.map (·.1)
  match a2? with
  | some a2 => if (objGet agents a2).isSome then some a2 else none
  | none => none

/-! ## Long responses (src/lib/response.ts) -/

/-- `LONG_RESPONSE_THRESHOLD` from src/lib/response.ts. -/
def LONG_RESPONSE_THRESHOLD : Nat := 4000

/-- Result of `handleLongResponse`: the outgoing body, the outgoing file
list, and the file write it performed (`fs.writeFile(filePath, response)`),
if any, as a `(path, contents)` pair. -/
structure LongResponseResult where
  message : String
  files : List String
  saved : Option (String × String)
deriving DecidableEq, Repr

/-- `handleLongResponse` (src/lib/response.ts lines 743-763): a response
at most the threshold passes through; a longer one is persisted in full to
`FILES_DIR/response_<Date.now()>.md`, the preview is the first
`LONG_RESPONSE_THRESHOLD` characters plus the attached-note suffix, and
the saved path is appended to the outgoing files. -/
def handleLongResponse (filesDir : String) (timestamp : Int)
    (response : String) (existingFiles : List String) : LongResponseResult :=
  if response.length ≤ LONG_RESPONSE_THRESHOLD then
    { message := response, files := existingFiles, saved := none }
  else
    let filePath := filesDir ++ "/response_" ++ toString timestamp ++ ".md"
    let preview := String.mk (response.data.take LONG_RESPONSE_THRESHOLD) ++
      "\n\n_(Full response attached as file)_"
    { message := preview, files := existingFiles ++ [filePath],
      saved := some (filePath, response) }

/-! ## Theorems -/

/-- C1: for every existing message row and every error string,
`failMessage(id, error)` increments the row's `retry_count` by exactly 1;
if the incremented count reaches `MAX_RETRIES = 5` the row becomes `dead`,
otherwise `pending`, and `claimed_by` is cleared. Consequently a claimed
message failed five times is `dead` with `retry_count = 5` and a
subsequent `claimNextMessage` for its agent returns none. -/
theorem failMessage_spec :
    (∀ (db : MessagesTable) (rowId : Nat) (error : String) (now : Int)
        (msg : DbMessage),
        db.find? (fun r => r.id == rowId) = some msg →
        ∀ x ∈ failMessage rowId error now db,
          (x.id = rowId →
            x.retry_count = msg.retry_count + 1 ∧
            x.status = (if MAX_RETRIES ≤ msg.retry_count + 1 then MsgStatus.dead
                        else MsgStatus.pending) ∧
            x.claimed_by = none ∧ x.last_error = some error ∧ x.updated_at = now) ∧
          (x.id ≠ rowId → x ∈ db)) ∧
    (let db0 : MessagesTable := [⟨1, "m1", some "a", .pending, 0, none, 100, 100, none⟩]
     let db1 := (claimNextMessage "a" 101 db0).2
     let db6 := failMessage 1 "boom" 106 (failMessage 1 "boom" 105 (failMessage 1 "boom" 104
       (failMessage 1 "boom" 103 (failMessage 1 "boom" 102 db1))))
     (∀ x ∈ db6, x.status = MsgStatus.dead ∧ x.retry_count = 5) ∧
     (claimNextMessage "a" 107 db6).1 = none) := by
  constructor
  · intro db rowId error now msg hfind x hx
    simp only [failMessage, hfind] at hx
    rw [List.mem_map] at hx
    obtain ⟨y, hy, rfl⟩ := hx
    by_cases h : (y.id == rowId) = true
    · have hid : y.id = rowId := by simpa using h
      rw [if_pos h]
      exact ⟨fun _ => by simp, fun hne => absurd hid hne⟩
    · rw [Bool.not_eq_true] at h
      have hne : y.id ≠ rowId := by simpa using h
      simp only [h, Bool.false_eq_true, if_false]
      exact ⟨fun heq => absurd heq hne, fun _ => hy⟩
  · decide

theorem failMessage_spec_witness :
    (([⟨1, "m", some "a", .processing, 3, none, 5, 6, some "a"⟩] : MessagesTable).find?
        (fun r => r.id == 1) =
      some (⟨1, "m", some "a", .processing, 3, none, 5, 6, some "a"⟩ : DbMessage)) ∧
    ∀ x ∈ failMessage 1 "err" 7
        [⟨1, "m", some "a", .processing, 3, none, 5, 6, some "a"⟩],
      (x.id = 1 →
        x.retry_count = 3 + 1 ∧
        x.status = (if MAX_RETRIES ≤ 3 + 1 then MsgStatus.dead else MsgStatus.pending) ∧
        x.claimed_by = none ∧ x.last_error = some "err" ∧ x.updated_at = 7) ∧
      (x.id ≠ 1 →
        x ∈ ([⟨1, "m", some "a", .processing, 3, none, 5, 6, some "a"⟩] : MessagesTable)) :=
  ⟨by decide, fun x hx => failMessage_spec.1 _ 1 "err" 7
    ⟨1, "m", some "a", .processing, 3, none, 5, 6, some "a"⟩ (by decide) x hx⟩

/-- C10: `failMessage` on a row id matching no row leaves the messages
table unchanged and returns normally. -/
theorem failMessage_missing_id_noop (db : MessagesTable) (rowId : Nat)
    (error : String) (now : Int) (h : ∀ r ∈ db, r.id ≠ rowId) :
    failMessage rowId error now db = db := by
  have hf : db.find? (fun r => r.id == rowId) = none := by
    rw [List.find?_eq_none]
    intro r hr
    simpa using h r hr
  simp [failMessage, hf]

theorem failMessage_missing_id_noop_witness :
    (∀ r ∈ ([⟨2, "m2", some "a", .pending, 0, none, 1, 1, none⟩] : MessagesTable),
      r.id ≠ 1) ∧
    failMessage 1 "err" 9 [⟨2, "m2", some "a", .pending, 0, none, 1, 1, none⟩] =
      [⟨2, "m2", some "a", .pending, 0, none, 1, 1, none⟩] :=
  ⟨by decide, failMessage_missing_id_noop _ 1 "err" 9 (by decide)⟩

/-- C2 counterexample: a conversation trace of 48 single-mention steps,
one step that fans out to 2 teammates (allowed, since at that moment
`totalMessages = 49 < 50 = maxMessages`), and the 2 resulting steps, ends
at rest (no queued messages, `pending = 0`) with `totalMessages = 51`,
strictly above `maxMessages = 50`. -/
theorem conv_totalMessages_can_exceed_max :
    (runConversation (List.replicate 48 1 ++ [2, 0, 0])).queued = 0 ∧
    (runConversation (List.replicate 48 1 ++ [2, 0, 0])).pending = 0 ∧
    (runConversation (List.replicate 48 1 ++ [2, 0, 0])).maxMessages <
      (runConversation (List.replicate 48 1 ++ [2, 0, 0])).totalMessages := by
  decide

theorem processConvStep_safe (s : ConvState) (k : Nat) (hk : k ≤ 1)
    (h1 : s.queued ≤ 1) (h2 : s.totalMessages ≤ s.maxMessages)
    (h3 : s.queued = 1 → s.totalMessages < s.maxMessages) :
    (processConvStep s k).queued ≤ 1 ∧
    (processConvStep s k).maxMessages = s.maxMessages ∧
    (processConvStep s k).totalMessages ≤ (processConvStep s k).maxMessages ∧
    ((processConvStep s k).queued = 1 →
      (processConvStep s k).totalMessages < (processConvStep s k).maxMessages) := by
  by_cases hq : s.queued = 0
  · simp only [processConvStep, if_pos hq]
    exact ⟨h1, trivial, h2, h3⟩
  · have hq1 : s.queued = 1 := by omega
    have hlt := h3 hq1
    simp only [processConvStep, if_neg hq]
    by_cases hcond : 0 < k ∧ s.totalMessages + 1 < s.maxMessages
    · simp only [if_pos hcond]
      exact ⟨by omega, trivial, by omega, fun _ => hcond.2⟩
    · simp only [if_neg hcond]
      exact ⟨by omega, trivial, by omega, by omega⟩

theorem foldl_conv_safe (steps : List Nat) (h : ∀ k ∈ steps, k ≤ 1) :
    ∀ (s : ConvState), s.queued ≤ 1 → s.totalMessages ≤ s.maxMessages →
      (s.queued = 1 → s.totalMessages < s.maxMessages) →
      (steps.foldl processConvStep s).totalMessages ≤
        (steps.foldl processConvStep s).maxMessages := by
  induction steps with
  | nil => intro s _ h2 _; exact h2
  | cons k ks ih =>
    intro s h1 h2 h3
    have hk : k ≤ 1 := h k (by simp)
    obtain ⟨g1, _, g3, g4⟩ := processConvStep_safe s k hk h1 h2 h3
    exact ih (fun x hx => h x (by simp [hx])) (processConvStep s k) g1 g3 g4

/-- C2 amended: at rest `totalMessages ≤ maxMessages` holds for every
conversation trace in which each processing step enqueues at most one
mention (for example any strict-pipeline conversation); a step fanning out
to two or more teammates while `totalMessages = maxMessages − 1` pushes
`totalMessages` strictly above `maxMessages`
(see the counterexample theorem). -/
theorem conv_totalMessages_le_max_of_single_mentions (steps : List Nat)
    (h : ∀ k ∈ steps, k ≤ 1) :
    (runConversation steps).totalMessages ≤ (runConversation steps).maxMessages := by
  have := foldl_conv_safe steps h initialConvState (by decide) (by decide) (by decide)
  simpa [runConversation] using this

theorem conv_totalMessages_le_max_of_single_mentions_witness :
    (∀ k ∈ [1, 1, 1, 0], k ≤ 1) ∧
    (runConversation [1, 1, 1, 0]).totalMessages ≤
      (runConversation [1, 1, 1, 0]).maxMessages :=
  ⟨by decide, conv_totalMessages_le_max_of_single_mentions [1, 1, 1, 0] (by decide)⟩

/-- C9: a final response strictly longer than
`LONG_RESPONSE_THRESHOLD = 4000` characters is persisted in full to a
file whose path is appended to the outbound files, and the returned body
is exactly the first 4000 characters followed by the attached-note
suffix. -/
theorem handleLongResponse_spec (filesDir : String) (timestamp : Int)
    (response : String) (existingFiles : List String)
    (h : LONG_RESPONSE_THRESHOLD < response.length) :
    (handleLongResponse filesDir timestamp response existingFiles).message =
      String.mk (response.data.take LONG_RESPONSE_THRESHOLD) ++
        "\n\n_(Full response attached as file)_" ∧
    (handleLongResponse filesDir timestamp response existingFiles).files =
      existingFiles ++ [filesDir ++ "/response_" ++ toString timestamp ++ ".md"] ∧
    (handleLongResponse filesDir timestamp response existingFiles).saved =
      some (filesDir ++ "/response_" ++ toString timestamp ++ ".md", response) ∧
    (String.mk (response.data.take LONG_RESPONSE_THRESHOLD)).length =
      LONG_RESPONSE_THRESHOLD := by
  have hn : ¬ response.length ≤ LONG_RESPONSE_THRESHOLD := by omega
  unfold handleLongResponse
  rw [if_neg hn]
  refine ⟨rfl, rfl, rfl, ?_⟩
  have hl : response.data.length = response.length := rfl
  simp only [String.length, List.length_take]
  omega

theorem handleLongResponse_spec_witness :
    LONG_RESPONSE_THRESHOLD < (String.mk (List.replicate 5000 'a')).length ∧
    (handleLongResponse "files" 0 (String.mk (List.replicate 5000 'a')) []).files =
      ["files/response_0.md"] ∧
    (handleLongResponse "files" 0 (String.mk (List.replicate 5000 'a')) []).saved =
      some ("files/response_0.md", String.mk (List.replicate 5000 'a')) := by
  have h5 : LONG_RESPONSE_THRESHOLD < (String.mk (List.replicate 5000 'a')).length := by
    show LONG_RESPONSE_THRESHOLD < (List.replicate 5000 'a').length
    rw [List.length_replicate]
    decide
  have hs := handleLongResponse_spec "files" 0 (String.mk (List.replicate 5000 'a')) [] h5
  exact ⟨h5, by simpa using hs.2.1, hs.2.2.1⟩

theorem staleMatches_eq_decide (cutoff : Int) (r : DbMessage) :
    staleMatches cutoff r =
      decide (r.status = MsgStatus.processing ∧ r.updated_at < cutoff) := by
  by_cases h1 : r.status = MsgStatus.processing <;>
    by_cases h2 : r.updated_at < cutoff <;> simp [staleMatches, h1, h2]

/-- C4: `recoverStaleMessages(thresholdMs)` touches exactly the rows in
status `processing` with `updated_at < now − threshold`; for each it
increments `retry_count` and sets the row `dead` when the incremented
count reaches `MAX_RETRIES = 5`, else `pending` with `claimed_by` cleared
and `last_error` the recovery marker; it returns the number of rows
touched; and a boot-time call with threshold 0 (all processing rows having
been written strictly before `now`) leaves no rows in `processing`. -/
theorem recoverStaleMessages_spec :
    (∀ (now thresholdMs : Int) (db : MessagesTable),
      ((recoverStaleMessages now thresholdMs db).1 =
        db.countP (fun r =>
          decide (r.status = MsgStatus.processing ∧
                  r.updated_at < now - thresholdMs))) ∧
      ∀ x ∈ db,
        (x.status = MsgStatus.processing → x.updated_at < now - thresholdMs →
          { x with status := if MAX_RETRIES ≤ x.retry_count + 1 then MsgStatus.dead
                             else MsgStatus.pending,
                   retry_count := x.retry_count + 1,
                   last_error := some "Recovered from stale processing state",
                   claimed_by := none, updated_at := now } ∈
            (recoverStaleMessages now thresholdMs db).2) ∧
        (¬(x.status = MsgStatus.processing ∧ x.updated_at < now - thresholdMs) →
          x ∈ (recoverStaleMessages now thresholdMs db).2)) ∧
    (∀ (now : Int) (db : MessagesTable),
      (∀ r ∈ db, r.status = MsgStatus.processing → r.updated_at < now) →
      ∀ x ∈ (recoverStaleMessages now 0 db).2, x.status ≠ MsgStatus.processing) := by
  constructor
  · intro now thresholdMs db
    refine ⟨?_, ?_⟩
    · show (db.filter (staleMatches (now - thresholdMs))).length = _
      rw [List.countP_eq_length_filter]
      congr 1
      apply List.filter_congr
      intro r _
      rw [staleMatches_eq_decide]
    · intro x hx
      constructor
      · intro hp hu
        have hs : staleMatches (now - thresholdMs) x = true := by
          simp [staleMatches, hp, hu]
        have := List.mem_map_of_mem
          (f := fun r =>
            if staleMatches (now - thresholdMs) r then
              { r with status := if MAX_RETRIES ≤ r.retry_count + 1 then MsgStatus.dead
                                 else MsgStatus.pending,
                       retry_count := r.retry_count + 1,
                       last_error := some "Recovered from stale processing state",
                       claimed_by := none, updated_at := now }
            else r) hx
        dsimp only at this
        rw [if_pos hs] at this
        exact this
      · intro hn
        have hs : staleMatches (now - thresholdMs) x = false := by
          rw [staleMatches_eq_decide]
          simpa using hn
        have := List.mem_map_of_mem
          (f := fun r =>
            if staleMatches (now - thresholdMs) r then
              { r with status := if MAX_RETRIES ≤ r.retry_count + 1 then MsgStatus.dead
                               else MsgStatus.pending,
                       retry_count := r.retry_count + 1,
                       last_error := some "Recovered from stale processing state",
                       claimed_by := none, updated_at := now }
            else r) hx
        dsimp only at this
        rw [if_neg (by simp [hs])] at this
        exact this
  · intro now db hmono x hx
    have hx' : x ∈ (db.map fun r =>
        if staleMatches (now - 0) r then
          { r with status := if MAX_RETRIES ≤ r.retry_count + 1 then MsgStatus.dead
                             else MsgStatus.pending,
                   retry_count := r.retry_count + 1,
                   last_error := some "Recovered from stale processing state",
                   claimed_by := none, updated_at := now }
        else r) := hx
    rw [List.mem_map] at hx'
    obtain ⟨y, hy, rfl⟩ := hx'
    by_cases hs : staleMatches (now - 0) y = true
    · rw [if_pos hs]
      split <;> simp
    · rw [if_neg hs]
      intro hyp
      have hlt := hmono y hy hyp
      rw [staleMatches_eq_decide] at hs
      simp [hyp] at hs
      omega

theorem recoverStaleMessages_spec_witness :
    (∀ r ∈ ([⟨1, "m", some "a", .processing, 0, none, 1, 5, some "a"⟩] : MessagesTable),
        r.status = MsgStatus.processing → r.updated_at < 10) ∧
    ∀ x ∈ (recoverStaleMessages 10 0
        [⟨1, "m", some "a", .processing, 0, none, 1, 5, some "a"⟩]).2,
      x.status ≠ MsgStatus.processing :=
  ⟨by decide, recoverStaleMessages_spec.2 10 _ (by decide)⟩

theorem claimBetter_iff (a b : DbMessage) :
    claimBetter a b = true ↔
      (a.created_at < b.created_at ∨
        (a.created_at = b.created_at ∧ a.id < b.id)) := by
  simp [claimBetter]

theorem claimBetter_eq_false (a b : DbMessage) :
    claimBetter a b = false ↔
      ¬(a.created_at < b.created_at ∨
        (a.created_at = b.created_at ∧ a.id < b.id)) := by
  rw [← claimBetter_iff]
  cases h : claimBetter a b <;> simp

theorem claimBetter_irrefl (a : DbMessage) : claimBetter a a = false := by
  rw [claimBetter_eq_false]
  omega

theorem claimBetter_not_not {x b r : DbMessage} (h1 : claimBetter x b = false)
    (h2 : claimBetter b r = false) : claimBetter x r = false := by
  rw [claimBetter_eq_false] at h1 h2 ⊢
  omega

theorem claimBetter_pos_not {x b r : DbMessage} (h1 : claimBetter x b = true)
    (h2 : claimBetter x r = false) : claimBetter b r = false := by
  rw [claimBetter_iff] at h1
  rw [claimBetter_eq_false] at h2 ⊢
  omega

theorem foldl_claimPick_mem (l : List DbMessage) :
    ∀ (acc : Option DbMessage) (r : DbMessage),
      l.foldl claimPick acc = some r → acc = some r ∨ r ∈ l := by
  induction l with
  | nil => intro acc r h; exact Or.inl h
  | cons x xs ih =>
    intro acc r h
    rcases ih (claimPick acc x) r h with h' | h'
    · cases acc with
      | none =>
        simp only [claimPick, Option.some.injEq] at h'
        exact Or.inr (by simp [h'])
      | some b =>
        simp only [claimPick] at h'
        by_cases hb : claimBetter x b = true
        · rw [if_pos hb] at h'
          exact Or.inr (by simp [Option.some.injEq] at h'; simp [h'])
        · rw [if_neg hb] at h'
          exact Or.inl h'
    · exact Or.inr (List.mem_cons_of_mem _ h')

theorem foldl_claimPick_min (l : List DbMessage) :
    ∀ (acc : Option DbMessage) (r : DbMessage),
      l.foldl claimPick acc = some r →
      (∀ x ∈ l, claimBetter x r = false) ∧
      (∀ b, acc = some b → claimBetter b r = false) := by
  induction l with
  | nil =>
    intro acc r h
    refine ⟨by simp, fun b hb => ?_⟩
    rw [hb] at h
    cases h
    exact claimBetter_irrefl r
  | cons x xs ih =>
    intro acc r h
    obtain ⟨hxs, hacc⟩ := ih (claimPick acc x) r h
    have hxr : claimBetter x r = false := by
      cases acc with
      | none => exact hacc x rfl
      | some b =>
        by_cases hb : claimBetter x b = true
        · exact hacc x (by simp [claimPick, if_pos hb])
        · have hbr := hacc b (by simp [claimPick, if_neg hb])
          exact claimBetter_not_not (by simpa using hb) hbr
    refine ⟨fun y hy => ?_, fun b0 hb0 => ?_⟩
    · rcases List.mem_cons.mp hy with rfl | hy'
      · exact hxr
      · exact hxs y hy'
    · subst hb0
      by_cases hb : claimBetter x b0 = true
      · exact claimBetter_pos_not hb hxr
      · exact hacc b0 (by simp [claimPick, if_neg hb])

theorem claimMatches_iff (agentId : String) (r : DbMessage) :
    claimMatches agentId r = true ↔
      (r.status = MsgStatus.pending ∧
        (r.agent = some agentId ∨ (r.agent = none ∧ agentId = "default"))) := by
  simp [claimMatches]

theorem claimSelect_spec (agentId : String) (db : MessagesTable) (r : DbMessage)
    (h : claimSelect agentId db = some r) :
    r ∈ db ∧ claimMatches agentId r = true ∧
      ∀ x ∈ db, claimMatches agentId x = true → claimBetter x r = false := by
  unfold claimSelect at h
  rcases foldl_claimPick_mem _ none r h with h' | h'
  · cases h'
  · have hmem := List.mem_filter.mp h'
    have hmin := (foldl_claimPick_min _ none r h).1
    exact ⟨hmem.1, hmem.2, fun x hx hm =>
      hmin x (List.mem_filter.mpr ⟨hx, hm⟩)⟩

/-- C3: `claimNextMessage(A)` selects the oldest `pending` row whose agent
equals `A` (or is null when `A = "default"`), breaking ties by lowest
created-at then lowest internal id, and updates it to `processing` with
`claimed_by = A` and `updated_at = now`, leaving all other rows unchanged;
in particular three messages enqueued for `A` at times 10 < 20 < 30 are
claimed in that order. -/
theorem claimNextMessage_spec :
    (∀ (agentId : String) (now : Int) (db : MessagesTable) (row : DbMessage)
        (db' : MessagesTable),
      claimNextMessage agentId now db = (some row, db') →
      ∃ r0 ∈ db,
        r0.status = MsgStatus.pending ∧
        (r0.agent = some agentId ∨ (r0.agent = none ∧ agentId = "default")) ∧
        (∀ x ∈ db, x.status = MsgStatus.pending →
          (x.agent = some agentId ∨ (x.agent = none ∧ agentId = "default")) →
          r0.created_at ≤ x.created_at ∧
            (r0.created_at = x.created_at → r0.id ≤ x.id)) ∧
        row = { r0 with status := MsgStatus.processing, claimed_by := some agentId } ∧
        (∀ x ∈ db',
          (x.id = r0.id →
            x.status = MsgStatus.processing ∧ x.claimed_by = some agentId ∧
            x.updated_at = now) ∧
          (x.id ≠ r0.id → x ∈ db))) ∧
    (let db0 : MessagesTable :=
       [⟨1, "m1", some "a", .pending, 0, none, 10, 10, none⟩,
        ⟨2, "m2", some "a", .pending, 0, none, 20, 20, none⟩,
        ⟨3, "m3", some "a", .pending, 0, none, 30, 30, none⟩]
     let c1 := claimNextMessage "a" 100 db0
     let c2 := claimNextMessage "a" 101 c1.2
     let c3 := claimNextMessage "a" 102 c2.2
     c1.1.map (·.id) = some 1 ∧ c2.1.map (·.id) = some 2 ∧
       c3.1.map (·.id) = some 3 ∧ (claimNextMessage "a" 103 c3.2).1 = none) := by
  constructor
  · intro agentId now db row db' hclaim
    unfold claimNextMessage at hclaim
    cases hsel : claimSelect agentId db with
    | none => rw [hsel] at hclaim; cases hclaim
    | some r0 =>
      rw [hsel] at hclaim
      dsimp only at hclaim
      rw [Prod.mk.injEq] at hclaim
      obtain ⟨hrow, hdb'⟩ := hclaim
      injection hrow with hrow
      obtain ⟨hmem, hmatch, hmin⟩ := claimSelect_spec agentId db r0 hsel
      obtain ⟨hst, hag⟩ := (claimMatches_iff agentId r0).mp hmatch
      refine ⟨r0, hmem, hst, hag, ?_, hrow.symm, ?_⟩
      · intro x hx hxst hxag
        have hm : claimMatches agentId x = true :=
          (claimMatches_iff agentId x).mpr ⟨hxst, hxag⟩
        have hb := hmin x hx hm
        rw [claimBetter_eq_false] at hb
        exact ⟨by omega, fun heq => by omega⟩
      · intro x hx
        rw [← hdb'] at hx
        rw [List.mem_map] at hx
        obtain ⟨y, hy, rfl⟩ := hx
        by_cases hid : (y.id == r0.id) = true
        · rw [if_pos hid]
          exact ⟨fun _ => ⟨rfl, rfl, rfl⟩, fun hne => absurd (by simpa using hid) hne⟩
        · rw [Bool.not_eq_true] at hid
          simp only [hid, Bool.false_eq_true, if_false]
          exact ⟨fun heq => absurd heq (by simpa using hid), fun _ => hy⟩
  · decide

theorem claimNextMessage_spec_witness :
    (claimNextMessage "a" 99 [⟨1, "m", some "a", .pending, 0, none, 10, 10, none⟩] =
      (some ⟨1, "m", some "a", .processing, 0, none, 10, 10, some "a"⟩,
       [⟨1, "m", some "a", .processing, 0, none, 10, 99, some "a"⟩])) ∧
    (∃ r0 ∈ ([⟨1, "m", some "a", .pending, 0, none, 10, 10, none⟩] : MessagesTable),
      r0.status = MsgStatus.pending ∧
      (r0.agent = some "a" ∨ (r0.agent = none ∧ "a" = "default")) ∧
      (∀ x ∈ ([⟨1, "m", some "a", .pending, 0, none, 10, 10, none⟩] : MessagesTable),
        x.status = MsgStatus.pending →
        (x.agent = some "a" ∨ (x.agent = none ∧ "a" = "default")) →
        r0.created_at ≤ x.created_at ∧
          (r0.created_at = x.created_at → r0.id ≤ x.id)) ∧
      (⟨1, "m", some "a", .processing, 0, none, 10, 10, some "a"⟩ : DbMessage) =
        { r0 with status := MsgStatus.processing, claimed_by := some "a" } ∧
      (∀ x ∈ ([⟨1, "m", some "a", .processing, 0, none, 10, 99, some "a"⟩] : MessagesTable),
        (x.id = r0.id →
          x.status = MsgStatus.processing ∧ x.claimed_by = some "a" ∧
          x.updated_at = 99) ∧
        (x.id ≠ r0.id →
          x ∈ ([⟨1, "m", some "a", .pending, 0, none, 10, 10, none⟩] : MessagesTable)))) :=
  ⟨by decide, claimNextMessage_spec.1 "a" 99 _ _ _ (by decide)⟩

/-- C8 counterexample: with no agents configured the processor calls
`failMessage(id, "No agents configured")`, but that failure is not
permanent — the row (first failure, `retry_count 0 → 1 < MAX_RETRIES`)
returns to `pending`, is not `dead`, and the very next
`claimNextMessage` for it succeeds: the message IS retried. -/
theorem noAgents_failure_is_retried :
    resolveAgentFallback [] "x" = none ∧
    (∀ x ∈ failMessage 1 "No agents configured" 12
        [⟨1, "m1", some "x", .processing, 0, none, 10, 11, some "x"⟩],
      x.status = MsgStatus.pending ∧ x.retry_count = 1 ∧ x.status ≠ MsgStatus.dead) ∧
    (claimNextMessage "x" 13 (failMessage 1 "No agents configured" 12
        [⟨1, "m1", some "x", .processing, 0, none, 10, 11, some "x"⟩])).1.map (·.id) =
      some 1 := by
  decide

/-- C8 amended: routing to a non-existent agent is never fatal — the
processor falls back to the `default` agent, then to the first configured
agent, and a configured agent is always found unless the agents object is
empty; only then is the message failed with the reason
`"No agents configured"` via `failMessage`, which schedules a retry: the
row returns to `pending` with `retry_count` incremented while below
`MAX_RETRIES`, and reaches `dead` once `retry_count` hits `MAX_RETRIES`
(it is not failed permanently on the first attempt). -/
theorem routing_fallback_spec :
    (∀ (agents : ConfigMap AgentConfig) (id : String),
      (objGet agents id).isSome → resolveAgentFallback agents id = some id) ∧
    (∀ (agents : ConfigMap AgentConfig) (id : String),
      objGet agents id = none → (objGet agents "default").isSome →
      resolveAgentFallback agents id = some "default") ∧
    (∀ (k : String) (v : AgentConfig) (rest : ConfigMap AgentConfig) (id : String),
      objGet ((k, v) :: rest) id = none → objGet ((k, v) :: rest) "default" = none →
      resolveAgentFallback ((k, v) :: rest) id = some k) ∧
    (∀ id, resolveAgentFallback [] id = none) ∧
    (∀ (agents : ConfigMap AgentConfig) (id : String),
      agents ≠ [] → (resolveAgentFallback agents id).isSome) ∧
    (∀ (db : MessagesTable) (rowId : Nat) (now : Int) (msg : DbMessage),
      db.find? (fun r => r.id == rowId) = some msg →
      ∀ x ∈ failMessage rowId "No agents configured" now db,
        x.id = rowId →
        x.retry_count = msg.retry_count + 1 ∧
        (msg.retry_count + 1 < MAX_RETRIES → x.status = MsgStatus.pending) ∧
        (MAX_RETRIES ≤ msg.retry_count + 1 → x.status = MsgStatus.dead)) := by
  refine ⟨?_, ?_, ?_, ?_, ?_, ?_⟩
  · intro agents id h
    simp [resolveAgentFallback, h]
  · intro agents id h1 h2
    simp [resolveAgentFallback, h1, h2]
  · intro k v rest id h1 h2
    have hk : objGet ((k, v) :: rest) k = some v := by
      simp [objGet, List.find?]
    simp [resolveAgentFallback, h1, h2, hk]
  · intro id
    simp [resolveAgentFallback, objGet]
  · intro agents id hne
    match agents with
    | [] => exact absurd rfl hne
    | (k, v) :: rest =>
      by_cases h1 : (objGet ((k, v) :: rest) id).isSome
      · have h2 : (objGet ((k, v) :: rest) id).isSome := h1
        simp [resolveAgentFallback, h2]
      · have h1' : objGet ((k, v) :: rest) id = none := by
          cases h : objGet ((k, v) :: rest) id with
          | none => rfl
          | some w => rw [h] at h1; simp at h1
        by_cases h2 : (objGet ((k, v) :: rest) "default").isSome
        · simp [resolveAgentFallback, h1', h2]
        · have h2' : objGet ((k, v) :: rest) "default" = none := by
            cases h : objGet ((k, v) :: rest) "default" with
            | none => rfl
            | some w => rw [h] at h2; simp at h2
          have hk : objGet ((k, v) :: rest) k = some v := by
            simp [objGet, List.find?]
          simp [resolveAgentFallback, h1', h2', hk]
  · intro db rowId now msg hfind x hx hid
    simp only [failMessage, hfind] at hx
    rw [List.mem_map] at hx
    obtain ⟨y, hy, rfl⟩ := hx
    by_cases h : (y.id == rowId) = true
    · rw [if_pos h]
      refine ⟨rfl, fun hlt => ?_, fun hge => ?_⟩
      · simp only []
        rw [if_neg (by omega)]
      · simp only []
        rw [if_pos hge]
    · rw [Bool.not_eq_true] at h
      rw [if_neg (by simp [h])] at hid ⊢
      exact absurd hid (by simpa using h)

theorem routing_fallback_spec_witness :
    (objGet ([("default", ⟨"D", "anthropic", "sonnet", "/w"⟩)] :
        ConfigMap AgentConfig) "ghost" = none) ∧
    ((objGet ([("default", ⟨"D", "anthropic", "sonnet", "/w"⟩)] :
        ConfigMap AgentConfig) "default").isSome) ∧
    resolveAgentFallback [("default", ⟨"D", "anthropic", "sonnet", "/w"⟩)] "ghost" =
      some "default" :=
  ⟨by decide, by decide,
   routing_fallback_spec.2.1 [("default", ⟨"D", "anthropic", "sonnet", "/w"⟩)]
     "ghost" (by decide) (by decide)⟩

theorem jsIndexOf_neg_or_nonneg (l : List String) (x : String) :
    jsIndexOf l x = -1 ∨ 0 ≤ jsIndexOf l x := by
  induction l with
  | nil => exact Or.inl rfl
  | cons y ys ih =>
    simp only [jsIndexOf]
    by_cases h : (y == x) = true
    · rw [if_pos h]; right; omega
    · rw [if_neg h]
      rcases ih with h' | h'
      · rw [h']
        exact Or.inl (by norm_num)
      · right
        rw [if_neg (by omega)]
        omega

theorem jsIndexOf_spec (l : List String) (x : String) :
    ∀ i : Nat, jsIndexOf l x = (i : Int) →
      l[i]? = some x ∧ ∀ j < i, l[j]? ≠ some x := by
  induction l with
  | nil =>
    intro i h
    simp only [jsIndexOf] at h
    omega
  | cons y ys ih =>
    intro i h
    simp only [jsIndexOf] at h
    by_cases hyx : (y == x) = true
    · rw [if_pos hyx] at h
      have hi : i = 0 := by omega
      subst hi
      have hy : y = x := by simpa using hyx
      subst hy
      exact ⟨by simp, fun j hj => absurd hj (by omega)⟩
    · rw [if_neg hyx] at h
      by_cases hr : jsIndexOf ys x < 0
      · rw [if_pos hr] at h; omega
      · rw [if_neg hr] at h
        obtain ⟨i', rfl⟩ : ∃ i', i = i' + 1 := ⟨i - 1, by omega⟩
        have h' : jsIndexOf ys x = (i' : Int) := by push_cast at h ⊢; omega
        obtain ⟨h1, h2⟩ := ih i' h'
        refine ⟨by simpa using h1, ?_⟩
        intro j hj
        cases j with
        | zero =>
          have : ¬ y = x := by simpa using hyx
          simpa using this
        | succ j' =>
          have := h2 j' (by omega)
          simpa using this

theorem jsIndexOf_of_not_mem (l : List String) (x : String)
    (h : x ∉ l) : jsIndexOf l x = -1 := by
  induction l with
  | nil => rfl
  | cons y ys ih =>
    simp only [jsIndexOf]
    have hyx : ¬(y == x) = true := by
      simp only [beq_iff_eq]
      intro hy
      exact h (by simp [hy])
    rw [if_neg hyx]
    rw [ih (fun hm => h (List.mem_cons_of_mem _ hm))]
    norm_num

/-- C6: with a strict pipeline, every teammate mention extracted from the
agent's response is discarded; exactly one outgoing mention is synthesized
iff the current agent has a successor in the pipeline sequence and
`totalMessages < maxMessages`; the mention is directed to the next
sequence agent, carries the `[Original request]` / `[Output from @agent]`
body, and `pipelineStep` advances by 1 (otherwise nothing is emitted and
`pipelineStep` is unchanged). The trailing conjuncts pin
`getNextPipelineAgent` to the sequence: it is the entry after the first
occurrence of the agent, none when the agent is last or absent. -/
theorem strictPipeline_spec (pipeline : PipelineConfig)
    (agentId originalMessage response : String)
    (totalMessages maxMessages pipelineStep pipelineLoops : Nat)
    (extracted : List Mention)
    (hstrict : pipeline.strict = true) :
    (pipelineEnforce pipeline agentId originalMessage response totalMessages
        maxMessages pipelineStep pipelineLoops extracted =
      pipelineEnforce pipeline agentId originalMessage response totalMessages
        maxMessages pipelineStep pipelineLoops []) ∧
    (∀ nextAgent, getNextPipelineAgent pipeline agentId = some nextAgent →
      totalMessages < maxMessages →
      pipelineEnforce pipeline agentId originalMessage response totalMessages
          maxMessages pipelineStep pipelineLoops extracted =
        { mentions := [⟨nextAgent,
            "[Original request]:\n" ++ originalMessage ++
            "\n\n[Output from @" ++ agentId ++ "]:\n" ++ response⟩],
          pipelineStep := pipelineStep + 1, pipelineLoops := pipelineLoops }) ∧
    (getNextPipelineAgent pipeline agentId = none ∨ maxMessages ≤ totalMessages →
      pipelineEnforce pipeline agentId originalMessage response totalMessages
          maxMessages pipelineStep pipelineLoops extracted =
        { mentions := [], pipelineStep := pipelineStep,
          pipelineLoops := pipelineLoops }) ∧
    (∀ i : Nat, jsIndexOf pipeline.sequence agentId = (i : Int) →
      (pipeline.sequence[i]? = some agentId ∧
        ∀ j < i, pipeline.sequence[j]? ≠ some agentId) ∧
      (i + 1 < pipeline.sequence.length →
        getNextPipelineAgent pipeline agentId = pipeline.sequence[i + 1]?) ∧
      (i + 1 = pipeline.sequence.length →
        getNextPipelineAgent pipeline agentId = none)) ∧
    (agentId ∉ pipeline.sequence → getNextPipelineAgent pipeline agentId = none) := by
  refine ⟨?_, ?_, ?_, ?_, ?_⟩
  · simp [pipelineEnforce, hstrict]
  · intro nextAgent hnext hlt
    simp only [pipelineEnforce, hstrict, if_true, hnext, if_pos hlt]
  · intro hstop
    rcases hstop with hnone | hge
    · simp only [pipelineEnforce, hstrict, if_true, hnone]
    · cases hn : getNextPipelineAgent pipeline agentId with
      | none => simp only [pipelineEnforce, hstrict, if_true, hn]
      | some next =>
        simp only [pipelineEnforce, hstrict, if_true, hn, if_neg (by omega : ¬ totalMessages < maxMessages)]
  · intro i hidx
    refine ⟨jsIndexOf_spec pipeline.sequence agentId i hidx, ?_, ?_⟩
    · intro hlt
      simp only [getNextPipelineAgent, hidx]
      rw [if_neg (by omega)]
      simp
    · intro heq
      simp only [getNextPipelineAgent, hidx]
      rw [if_pos (by omega)]
  · intro hnm
    simp only [getNextPipelineAgent, jsIndexOf_of_not_mem pipeline.sequence agentId hnm]
    rw [if_pos (by norm_num)]

theorem strictPipeline_spec_witness :
    (⟨["po", "coder", "rev"], true, 0⟩ : PipelineConfig).strict = true ∧
    getNextPipelineAgent ⟨["po", "coder", "rev"], true, 0⟩ "po" = some "coder" ∧
    (3 : Nat) < 50 ∧
    pipelineEnforce ⟨["po", "coder", "rev"], true, 0⟩ "po" "req" "resp" 3 50 0 0
        [⟨"rev", "zz"⟩] =
      { mentions := [⟨"coder",
          "[Original request]:\n" ++ "req" ++
          "\n\n[Output from @" ++ "po" ++ "]:\n" ++ "resp"⟩],
        pipelineStep := 0 + 1, pipelineLoops := 0 } :=
  ⟨rfl, by decide, by decide,
   (strictPipeline_spec ⟨["po", "coder", "rev"], true, 0⟩ "po" "req" "resp" 3 50 0 0
      [⟨"rev", "zz"⟩] rfl).2.1 "coder" (by decide) (by decide)⟩

theorem takeWhile_append_all {p : Char → Bool} (l l2 : List Char)
    (h : ∀ c ∈ l, p c = true) : (l ++ l2).takeWhile p = l ++ l2.takeWhile p := by
  induction l with
  | nil => simp
  | cons x xs ih =>
    simp only [List.cons_append, List.takeWhile_cons]
    rw [h x (by simp)]
    simp only [if_true, List.cons.injEq, true_and]
    exact ih (fun c hc => h c (by simp [hc]))

theorem dropWhile_append_all {p : Char → Bool} (l l2 : List Char)
    (h : ∀ c ∈ l, p c = true) : (l ++ l2).dropWhile p = l2.dropWhile p := by
  induction l with
  | nil => simp
  | cons x xs ih =>
    simp only [List.cons_append, List.dropWhile_cons]
    rw [h x (by simp)]
    simp only [if_true]
    exact ih (fun c hc => h c (by simp [hc]))

theorem parseBracketTag_ne (c : Char) (l : List Char) (h : c ≠ '[') :
    parseBracketTag (c :: l) = none := by
  unfold parseBracketTag
  split
  · rename_i heq
    injection heq with h1 h2
    exact absurd h1 h
  · rfl

theorem parseAfterTag_with_body (pfx : List Char) (X : String) (tail : List Char)
    (hne : X.data ≠ []) (hns : ∀ c ∈ X.data, isJsSpace c = false) :
    parseAfterTag pfx ('@' :: (X.data ++ (' ' :: tail))) =
      some (pfx, X.data, tail.dropWhile isJsSpace) := by
  have hp : ∀ c ∈ X.data, (!isJsSpace c) = true := by
    intro c hc; rw [hns c hc]; rfl
  unfold parseAfterTag
  split
  · rename_i r1 heq
    injection heq with h1 h2
    subst h2
    rw [takeWhile_append_all _ _ hp, dropWhile_append_all _ _ hp]
    have h1 : ((' ' :: tail).takeWhile (fun c => !isJsSpace c)) = [] := by
      simp [List.takeWhile_cons, isJsSpace]
    have h2 : ((' ' :: tail).dropWhile (fun c => !isJsSpace c)) = ' ' :: tail := by
      simp [List.dropWhile_cons, isJsSpace]
    have h3 : X.data.isEmpty = false := by
      cases hX : X.data with
      | nil => exact absurd hX hne
      | cons a as => rfl
    have h4 : ((' ' :: tail).dropWhile isJsSpace) = tail.dropWhile isJsSpace := by
      simp [List.dropWhile_cons, isJsSpace]
    rw [h1, h2]
    simp only [List.append_nil, h3, Bool.false_eq_true, if_false, h4]
  · rename_i hmiss
    exact absurd rfl (hmiss _)

theorem parseAfterTag_no_body (pfx : List Char) (X : String)
    (hne : X.data ≠ []) (hns : ∀ c ∈ X.data, isJsSpace c = false) :
    parseAfterTag pfx ('@' :: X.data) = some (pfx, X.data, []) := by
  have hp : ∀ c ∈ X.data, (!isJsSpace c) = true := by
    intro c hc; rw [hns c hc]; rfl
  have ht : X.data.takeWhile (fun c => !isJsSpace c) = X.data := by
    have := takeWhile_append_all (p := fun c => !isJsSpace c) X.data [] hp
    simpa using this
  have hd : X.data.dropWhile (fun c => !isJsSpace c) = [] := by
    have := dropWhile_append_all (p := fun c => !isJsSpace c) X.data [] hp
    simpa using this
  unfold parseAfterTag
  split
  · rename_i r1 heq
    injection heq with h1 h2
    subst h2
    have h3 : X.data.isEmpty = false := by
      cases hX : X.data with
      | nil => exact absurd hX hne
      | cons a as => rfl
    rw [ht, hd]
    simp only [h3, Bool.false_eq_true, if_false, List.dropWhile_nil]
  · rename_i hmiss
    exact absurd rfl (hmiss _)

theorem jsTrimList_of_ends (c d : Char) (m : List Char)
    (hc : isJsSpace c = false) (hd : isJsSpace d = false) :
    jsTrimList (c :: (m ++ [d])) = c :: (m ++ [d]) := by
  unfold jsTrimList
  rw [List.dropWhile_cons, hc]
  simp only [Bool.false_eq_true, if_false]
  rw [show (c :: (m ++ [d])).reverse = d :: (m.reverse ++ [c]) by simp]
  rw [List.dropWhile_cons, hd]
  simp only [Bool.false_eq_true, if_false]
  simp

theorem parseBracketTag_concrete (C : String) (rr : List Char)
    (hC : ∀ c ∈ C.data, (c != ']') = true) :
    parseBracketTag ('[' :: (C.data ++ (']' :: ':' :: ' ' :: '@' :: rr))) =
      some ('[' :: (C.data ++ [']', ':', ' ']), '@' :: rr) := by
  unfold parseBracketTag
  split
  · rename_i rest heq
    injection heq with h1 h2
    subst h2
    rw [takeWhile_append_all _ _ hC, dropWhile_append_all _ _ hC]
    have ht : ((']' :: ':' :: ' ' :: '@' :: rr).takeWhile (fun c => c != ']')) = [] := by
      simp [List.takeWhile_cons]
    have hd : ((']' :: ':' :: ' ' :: '@' :: rr).dropWhile (fun c => c != ']')) =
        ']' :: ':' :: ' ' :: '@' :: rr := by
      simp [List.dropWhile_cons]
    rw [ht, hd]
    split
    · rename_i r2 heq2
      injection heq2 with g1 g2
      injection g2 with g3 g4
      subst g4
      have hw : ((' ' :: '@' :: rr).takeWhile isJsSpace) = [' '] := by
        rw [List.takeWhile_cons]
        rw [show isJsSpace ' ' = true from rfl]
        simp only [if_true]
        rw [List.takeWhile_cons]
        rw [show isJsSpace '@' = false from rfl]
        simp
      have hw2 : ((' ' :: '@' :: rr).dropWhile isJsSpace) = '@' :: rr := by
        rw [List.dropWhile_cons]
        rw [show isJsSpace ' ' = true from rfl]
        simp only [if_true]
        rw [List.dropWhile_cons]
        rw [show isJsSpace '@' = false from rfl]
        simp
      rw [hw, hw2]
      simp [List.append_assoc]
    · rename_i hmiss
      exact absurd rfl (hmiss _)
  · rename_i hmiss
    exact (hmiss _ rfl).elim

theorem parseRouteMatch_body (X : String)
    (hne : X.data ≠ []) (hns : ∀ c ∈ X.data, isJsSpace c = false) :
    parseRouteMatch (("@" ++ X ++ " hello").data) =
      some ([], X.data, "hello".data) := by
  have hdata : ("@" ++ X ++ " hello").data = '@' :: (X.data ++ (' ' :: "hello".data)) := by
    rw [String.data_append, String.data_append]
    rw [show ("@" : String).data = ['@'] from rfl]
    rw [show (" hello" : String).data = ' ' :: "hello".data from rfl]
    simp
  rw [hdata]
  unfold parseRouteMatch
  rw [parseBracketTag_ne '@' _ (by decide)]
  dsimp only
  rw [parseAfterTag_with_body [] X "hello".data hne hns]
  rfl

theorem parseRouteMatch_nobody (X : String)
    (hne : X.data ≠ []) (hns : ∀ c ∈ X.data, isJsSpace c = false) :
    parseRouteMatch (("@" ++ X).data) = some ([], X.data, []) := by
  have hdata : ("@" ++ X).data = '@' :: X.data := by
    rw [String.data_append]
    rw [show ("@" : String).data = ['@'] from rfl]
    rfl
  rw [hdata]
  unfold parseRouteMatch
  rw [parseBracketTag_ne '@' _ (by decide)]
  dsimp only
  exact parseAfterTag_no_body [] X hne hns

theorem parseRouteMatch_bracket (C X : String)
    (hC : ∀ c ∈ C.data, (c != ']') = true)
    (hne : X.data ≠ []) (hns : ∀ c ∈ X.data, isJsSpace c = false) :
    parseRouteMatch (("[" ++ C ++ "]: @" ++ X ++ " hello").data) =
      some ('[' :: (C.data ++ [']', ':', ' ']), X.data, "hello".data) := by
  have hdata : ("[" ++ C ++ "]: @" ++ X ++ " hello").data =
      '[' :: (C.data ++ (']' :: ':' :: ' ' :: '@' :: (X.data ++ (' ' :: "hello".data)))) := by
    rw [String.data_append, String.data_append, String.data_append, String.data_append]
    rw [show ("[" : String).data = ['['] from rfl]
    rw [show ("]: @" : String).data = [']', ':', ' ', '@'] from rfl]
    rw [show (" hello" : String).data = ' ' :: "hello".data from rfl]
    simp
  rw [hdata]
  unfold parseRouteMatch
  rw [parseBracketTag_concrete C (X.data ++ (' ' :: "hello".data)) hC]
  dsimp only
  rw [parseAfterTag_with_body _ X "hello".data hne hns]
  rfl

/-- C5: `parseAgentRouting` resolves the leading `@token` (also after an
optional bracketed `[channel/sender]:` tag) on its lowercased form in the
order exact agent id, exact team id, agent display name (lowercased), team
display name (lowercased); a team match returns the team's leader with
`isTeam = true`; when nothing matches it returns `agentId = "default"`
with the raw message unchanged; and when the resolved body is empty and no
channel tag is present the raw input is kept as the message. -/
theorem parseAgentRouting_spec (X : String) (agents : ConfigMap AgentConfig)
    (teams : ConfigMap TeamConfig)
    (hne : X.data ≠ []) (hns : ∀ c ∈ X.data, isJsSpace c = false) :
    ((objGet agents (lowerStr X)).isSome →
      parseAgentRouting ("@" ++ X ++ " hello") agents teams =
        { agentId := lowerStr X, message := "hello", isTeam := false }) ∧
    (objGet agents (lowerStr X) = none →
      ∀ t, objGet teams (lowerStr X) = some t →
      parseAgentRouting ("@" ++ X ++ " hello") agents teams =
        { agentId := t.leader_agent, message := "hello", isTeam := true }) ∧
    (objGet agents (lowerStr X) = none → objGet teams (lowerStr X) = none →
      ∀ e, agents.find? (fun e => lowerStr e.2.name == lowerStr X) = some e →
      parseAgentRouting ("@" ++ X ++ " hello") agents teams =
        { agentId := e.1, message := "hello", isTeam := false }) ∧
    (objGet agents (lowerStr X) = none → objGet teams (lowerStr X) = none →
      agents.find? (fun e => lowerStr e.2.name == lowerStr X) = none →
      ∀ e, teams.find? (fun e => lowerStr e.2.name == lowerStr X) = some e →
      parseAgentRouting ("@" ++ X ++ " hello") agents teams =
        { agentId := e.2.leader_agent, message := "hello", isTeam := true }) ∧
    (objGet agents (lowerStr X) = none → objGet teams (lowerStr X) = none →
      agents.find? (fun e => lowerStr e.2.name == lowerStr X) = none →
      teams.find? (fun e => lowerStr e.2.name == lowerStr X) = none →
      parseAgentRouting ("@" ++ X ++ " hello") agents teams =
        { agentId := "default", message := "@" ++ X ++ " hello", isTeam := false }) ∧
    ((objGet agents (lowerStr X)).isSome →
      parseAgentRouting ("@" ++ X) agents teams =
        { agentId := lowerStr X, message := "@" ++ X, isTeam := false }) ∧
    (∀ C : String, (∀ c ∈ C.data, (c != ']') = true) →
      (objGet agents (lowerStr X)).isSome →
      parseAgentRouting ("[" ++ C ++ "]: @" ++ X ++ " hello") agents teams =
        { agentId := lowerStr X, message := "[" ++ C ++ "]: hello",
          isTeam := false }) := by
  have hmB := parseRouteMatch_body X hne hns
  have hmsg : String.mk (jsTrimList ([] ++ "hello".data)) = "hello" := by decide
  have hcondB : (String.mk (jsTrimList ([] ++ "hello".data)) == "" &&
      (List.isEmpty ([] : List Char))) = false := by decide
  refine ⟨?_, ?_, ?_, ?_, ?_, ?_, ?_⟩
  · intro hs
    obtain ⟨cfg, hcfg⟩ := Option.isSome_iff_exists.mp hs
    have h1 : objGet agents (String.mk (lowerList X.data)) = some cfg := hcfg
    unfold parseAgentRouting
    rw [hmB]
    dsimp only
    rw [h1]
    dsimp only
    rw [hcondB]
    simp only [Bool.false_eq_true, if_false]
    rw [hmsg]
    rfl
  · intro hA t hT
    have h1 : objGet agents (String.mk (lowerList X.data)) = none := hA
    have h2 : objGet teams (String.mk (lowerList X.data)) = some t := hT
    unfold parseAgentRouting
    rw [hmB]
    dsimp only
    rw [h1, h2]
    dsimp only
    rw [hcondB]
    simp only [Bool.false_eq_true, if_false]
    rw [hmsg]
  · intro hA hT e hF
    have h1 : objGet agents (String.mk (lowerList X.data)) = none := hA
    have h2 : objGet teams (String.mk (lowerList X.data)) = none := hT
    have h3 : agents.find?
        (fun e => lowerStr e.2.name == String.mk (lowerList X.data)) = some e := hF
    unfold parseAgentRouting
    rw [hmB]
    dsimp only
    rw [h1, h2, h3]
    dsimp only
    rw [hcondB]
    simp only [Bool.false_eq_true, if_false]
    rw [hmsg]
  · intro hA hT hFA e hFT
    have h1 : objGet agents (String.mk (lowerList X.data)) = none := hA
    have h2 : objGet teams (String.mk (lowerList X.data)) = none := hT
    have h3 : agents.find?
        (fun e => lowerStr e.2.name == String.mk (lowerList X.data)) = none := hFA
    have h4 : teams.find?
        (fun e => lowerStr e.2.name == String.mk (lowerList X.data)) = some e := hFT
    unfold parseAgentRouting
    rw [hmB]
    dsimp only
    rw [h1, h2, h3, h4]
    dsimp only
    rw [hcondB]
    simp only [Bool.false_eq_true, if_false]
    rw [hmsg]
  · intro hA hT hFA hFT
    have h1 : objGet agents (String.mk (lowerList X.data)) = none := hA
    have h2 : objGet teams (String.mk (lowerList X.data)) = none := hT
    have h3 : agents.find?
        (fun e => lowerStr e.2.name == String.mk (lowerList X.data)) = none := hFA
    have h4 : teams.find?
        (fun e => lowerStr e.2.name == String.mk (lowerList X.data)) = none := hFT
    unfold parseAgentRouting
    rw [hmB]
    dsimp only
    rw [h1, h2, h3, h4]
  · intro hs
    obtain ⟨cfg, hcfg⟩ := Option.isSome_iff_exists.mp hs
    have h1 : objGet agents (String.mk (lowerList X.data)) = some cfg := hcfg
    have hmN := parseRouteMatch_nobody X hne hns
    unfold parseAgentRouting
    rw [hmN]
    dsimp only
    rw [h1]
    dsimp only
    rw [show (String.mk (jsTrimList ([] ++ ([] : List Char))) == "" &&
        (List.isEmpty ([] : List Char))) = true from rfl]
    simp only [if_true]
    rfl
  · intro C hC hs
    obtain ⟨cfg, hcfg⟩ := Option.isSome_iff_exists.mp hs
    have h1 : objGet agents (String.mk (lowerList X.data)) = some cfg := hcfg
    have hmC := parseRouteMatch_bracket C X hC hne hns
    unfold parseAgentRouting
    rw [hmC]
    dsimp only
    rw [h1]
    dsimp only
    have hpfx : (List.isEmpty ('[' :: (C.data ++ [']', ':', ' ']))) = false := rfl
    rw [hpfx]
    simp only [Bool.and_false, Bool.false_eq_true, if_false]
    have hmsgC : String.mk (jsTrimList (('[' :: (C.data ++ [']', ':', ' '])) ++
        "hello".data)) = "[" ++ C ++ "]: hello" := by
      have hsplit : ('[' :: (C.data ++ [']', ':', ' '])) ++ "hello".data =
          '[' :: ((C.data ++ [']', ':', ' ', 'h', 'e', 'l', 'l']) ++ ['o']) := by
        simp
      rw [hsplit]
      rw [jsTrimList_of_ends '[' 'o' _ (by decide) (by decide)]
      have hrhs : ("[" ++ C ++ "]: hello").data =
          '[' :: ((C.data ++ [']', ':', ' ', 'h', 'e', 'l', 'l']) ++ ['o']) := by
        rw [String.data_append, String.data_append]
        rw [show ("[" : String).data = ['['] from rfl]
        rw [show ("]: hello" : String).data =
          [']', ':', ' ', 'h', 'e', 'l', 'l', 'o'] from rfl]
        simp
      rw [← hrhs]
    rw [hmsgC]
    rfl

theorem parseAgentRouting_spec_witness :
    ("coder" : String).data ≠ [] ∧
    (∀ c ∈ ("coder" : String).data, isJsSpace c = false) ∧
    (objGet ([("coder", ⟨"Coder", "anthropic", "sonnet", "/w"⟩)] :
        ConfigMap AgentConfig) (lowerStr "coder")).isSome ∧
    parseAgentRouting ("@" ++ "coder" ++ " hello")
        [("coder", ⟨"Coder", "anthropic", "sonnet", "/w"⟩)] [] =
      { agentId := lowerStr "coder", message := "hello", isTeam := false } :=
  ⟨by decide, by decide, by decide,
   (parseAgentRouting_spec "coder" _ [] (by decide) (by decide)).1 (by decide)⟩


theorem isTeammate_eq_true {id cur tid : String} {teams : ConfigMap TeamConfig}
    {agents : ConfigMap AgentConfig}
    (h : isTeammate id cur tid teams agents = true) :
    id ≠ cur ∧ (objGet agents id).isSome ∧
      ∃ team, objGet teams tid = some team ∧ id ∈ team.agents := by
  unfold isTeammate at h
  cases ht : objGet teams tid with
  | none => rw [ht] at h; cases h
  | some team =>
    rw [ht] at h
    dsimp only at h
    by_cases h1 : (id == cur) = true
    · rw [if_pos h1] at h; cases h
    · rw [if_neg h1] at h
      by_cases h2 : (!team.agents.contains id) = true
      · rw [if_pos h2] at h; cases h
      · rw [if_neg h2] at h
        by_cases h3 : (objGet agents id).isNone = true
        · rw [if_pos h3] at h; cases h
        · refine ⟨by simpa using h1, ?_, team, rfl, ?_⟩
          · cases ho : objGet agents id with
            | none => rw [ho] at h3; simp at h3
            | some v => simp
          · have : team.agents.contains id = true := by
              cases hc : team.agents.contains id
              · rw [hc] at h2; simp at h2
              · rfl
            simpa using this

theorem addTagCandidates_invariant (cur tid : String)
    (teams : ConfigMap TeamConfig) (agents : ConfigMap AgentConfig)
    (fullMessage : String) (Q : Mention → Prop)
    (hQ : ∀ id, isTeammate id cur tid teams agents = true → Q ⟨id, fullMessage⟩) :
    ∀ (cands : List String) (acc : List Mention × List String),
      (∀ m ∈ acc.1, Q m) → (acc.1.map (·.teammateId)).Nodup →
      (∀ m ∈ acc.1, m.teammateId ∈ acc.2) →
      (∀ m ∈ (addTagCandidates cur tid teams agents fullMessage cands acc).1, Q m) ∧
      ((addTagCandidates cur tid teams agents fullMessage cands acc).1.map
        (·.teammateId)).Nodup ∧
      (∀ m ∈ (addTagCandidates cur tid teams agents fullMessage cands acc).1,
        m.teammateId ∈ (addTagCandidates cur tid teams agents fullMessage cands acc).2) := by
  intro cands
  induction cands with
  | nil =>
    intro acc h1 h2 h3
    exact ⟨h1, h2, h3⟩
  | cons c cs ih =>
    intro acc h1 h2 h3
    have hstep : addTagCandidates cur tid teams agents fullMessage (c :: cs) acc =
        addTagCandidates cur tid teams agents fullMessage cs
          (if !acc.2.contains c && isTeammate c cur tid teams agents then
            (acc.1 ++ [⟨c, fullMessage⟩], c :: acc.2)
          else acc) := rfl
    rw [hstep]
    by_cases hc : (!acc.2.contains c && isTeammate c cur tid teams agents) = true
    · rw [if_pos hc]
      have hcc : acc.2.contains c = false ∧
          isTeammate c cur tid teams agents = true := by
        simpa using hc
      obtain ⟨hns, hteam⟩ := hcc
      have hnotmem : c ∉ acc.1.map (·.teammateId) := by
        intro hmem
        obtain ⟨m, hm, heq⟩ := List.mem_map.mp hmem
        have := h3 m hm
        rw [heq] at this
        have hcontains : acc.2.contains c = true := List.elem_eq_true_of_mem this
        rw [hcontains] at hns
        cases hns
      refine ih (acc.1 ++ [⟨c, fullMessage⟩], c :: acc.2) ?_ ?_ ?_
      · intro m hm
        rcases List.mem_append.mp hm with hm' | hm'
        · exact h1 m hm'
        · have : m = (⟨c, fullMessage⟩ : Mention) := by simpa using hm'
          rw [this]
          exact hQ c hteam
      · show ((acc.1 ++ [(⟨c, fullMessage⟩ : Mention)]).map (·.teammateId)).Nodup
        rw [List.map_append]
        rw [List.nodup_append]
        refine ⟨h2, by simp, ?_⟩
        intro x hx
        simp only [List.map_cons, List.map_nil, List.mem_cons, List.not_mem_nil,
          or_false]
        intro hxc
        rw [hxc] at hx
        exact hnotmem hx
      · intro m hm
        rcases List.mem_append.mp hm with hm' | hm'
        · exact List.mem_cons_of_mem _ (h3 m hm')
        · have : m = (⟨c, fullMessage⟩ : Mention) := by simpa using hm'
          rw [this]
          exact List.mem_cons_self _ _
    · rw [if_neg hc]
      exact ih acc h1 h2 h3

theorem extract_fold_invariant (cur tid : String) (teams : ConfigMap TeamConfig)
    (agents : ConfigMap AgentConfig) (shared : String)
    (alltags : List (List Char × List Char)) (Q : Mention → Prop)
    (hQ : ∀ tag ∈ alltags, ∀ id, isTeammate id cur tid teams agents = true →
      Q ⟨id, if shared == "" then String.mk (jsTrimList tag.2)
             else shared ++ "\n\n------\n\nDirected to you:\n" ++
               String.mk (jsTrimList tag.2)⟩) :
    ∀ (tags : List (List Char × List Char)), (∀ t ∈ tags, t ∈ alltags) →
    ∀ (acc : List Mention × List String),
      (∀ m ∈ acc.1, Q m) → (acc.1.map (·.teammateId)).Nodup →
      (∀ m ∈ acc.1, m.teammateId ∈ acc.2) →
      (∀ m ∈ (tags.foldl
          (fun acc tag =>
            addTagCandidates cur tid teams agents
              (if shared == "" then String.mk (jsTrimList tag.2)
               else shared ++ "\n\n------\n\nDirected to you:\n" ++
                 String.mk (jsTrimList tag.2))
              (tagCandidateIds tag.1) acc)
          acc).1, Q m) ∧
      ((tags.foldl
          (fun acc tag =>
            addTagCandidates cur tid teams agents
              (if shared == "" then String.mk (jsTrimList tag.2)
               else shared ++ "\n\n------\n\nDirected to you:\n" ++
                 String.mk (jsTrimList tag.2))
              (tagCandidateIds tag.1) acc)
          acc).1.map (·.teammateId)).Nodup := by
  intro tags
  induction tags with
  | nil =>
    intro _ acc h1 h2 _
    exact ⟨h1, h2⟩
  | cons t ts ih =>
    intro hsub acc h1 h2 h3
    rw [List.foldl_cons]
    obtain ⟨g1, g2, g3⟩ := addTagCandidates_invariant cur tid teams agents
      (if shared == "" then String.mk (jsTrimList t.2)
       else shared ++ "\n\n------\n\nDirected to you:\n" ++
         String.mk (jsTrimList t.2))
      Q (hQ t (hsub t (by simp)))
      (tagCandidateIds t.1) acc h1 h2 h3
    exact ih (fun x hx => hsub x (by simp [hx]))
      (addTagCandidates cur tid teams agents _ (tagCandidateIds t.1) acc) g1 g2 g3

/-- C7: every mention returned by `extractTeammateMentions` targets a
distinct id that is not the current agent, is a configured agent, and is a
member of the given team; its message is the tag-stripped trimmed shared
context followed by the separator and that tag's direct body (or just the
direct body when the shared context is empty); duplicate teammate ids are
collapsed to the first occurrence (illustrated by the closed example). -/
theorem extractTeammateMentions_spec :
    (∀ (response currentAgentId teamId : String)
        (teams : ConfigMap TeamConfig) (agents : ConfigMap AgentConfig),
      (∀ m ∈ extractTeammateMentions response currentAgentId teamId teams agents,
        m.teammateId ≠ currentAgentId ∧
        (objGet agents m.teammateId).isSome ∧
        (∃ team, objGet teams teamId = some team ∧ m.teammateId ∈ team.agents) ∧
        (∃ tag ∈ (scanTags response.data).1,
          m.message =
            (if String.mk (jsTrimList (scanTags response.data).2) == "" then
              String.mk (jsTrimList tag.2)
            else
              String.mk (jsTrimList (scanTags response.data).2) ++
                "\n\n------\n\nDirected to you:\n" ++
                String.mk (jsTrimList tag.2)))) ∧
      ((extractTeammateMentions response currentAgentId teamId teams
        agents).map (·.teammateId)).Nodup) ∧
    (extractTeammateMentions
        "Shared. [@rev: check] [@rev: again] [@coder,rev: both]" "po" "t"
        [("t", ⟨"T", ["po", "coder", "rev"], "po", none⟩)]
        [("po", ⟨"Po", "p", "m", "/w"⟩), ("coder", ⟨"Coder", "p", "m", "/w"⟩),
         ("rev", ⟨"Rev", "p", "m", "/w"⟩)] =
      [⟨"rev", "Shared.\n\n------\n\nDirected to you:\ncheck"⟩,
       ⟨"coder", "Shared.\n\n------\n\nDirected to you:\nboth"⟩]) := by
  constructor
  · intro response cur tid teams agents
    have main := extract_fold_invariant cur tid teams agents
      (String.mk (jsTrimList (scanTags response.data).2))
      (scanTags response.data).1
      (fun m =>
        (m.teammateId ≠ cur ∧
         (objGet agents m.teammateId).isSome ∧
         (∃ team, objGet teams tid = some team ∧ m.teammateId ∈ team.agents)) ∧
        (∃ tag ∈ (scanTags response.data).1,
          m.message =
            (if String.mk (jsTrimList (scanTags response.data).2) == "" then
              String.mk (jsTrimList tag.2)
            else
              String.mk (jsTrimList (scanTags response.data).2) ++
                "\n\n------\n\nDirected to you:\n" ++
                String.mk (jsTrimList tag.2))))
      (fun tag htag id hteam =>
        ⟨isTeammate_eq_true hteam, ⟨tag, htag, rfl⟩⟩)
      (scanTags response.data).1 (fun t ht => ht)
      ([], []) (by simp) (by simp) (by simp)
    obtain ⟨hall, hnodup⟩ := main
    constructor
    · intro m hm
      have hm' := hall m hm
      exact ⟨hm'.1.1, hm'.1.2.1, hm'.1.2.2, hm'.2⟩
    · exact hnodup
  · decide

theorem extractTeammateMentions_spec_witness :
    ((⟨"rev", "Shared.\n\n------\n\nDirected to you:\ncheck"⟩ : Mention) ∈
      extractTeammateMentions "Shared. [@rev: check]" "po" "t"
        [("t", ⟨"T", ["po", "coder", "rev"], "po", none⟩)]
        [("po", ⟨"Po", "p", "m", "/w"⟩), ("rev", ⟨"Rev", "p", "m", "/w"⟩)]) ∧
    (("rev" : String) ≠ "po" ∧
     (objGet ([("po", ⟨"Po", "p", "m", "/w"⟩), ("rev", ⟨"Rev", "p", "m", "/w"⟩)] :
        ConfigMap AgentConfig) "rev").isSome ∧
     (∃ team, objGet ([("t", ⟨"T", ["po", "coder", "rev"], "po", none⟩)] :
        ConfigMap TeamConfig) "t" = some team ∧ "rev" ∈ team.agents)) :=
  ⟨by decide,
   let h := (extractTeammateMentions_spec.1 "Shared. [@rev: check]" "po" "t"
      [("t", ⟨"T", ["po", "coder", "rev"], "po", none⟩)]
      [("po", ⟨"Po", "p", "m", "/w"⟩), ("rev", ⟨"Rev", "p", "m", "/w"⟩)]).1
      ⟨"rev", "Shared.\n\n------\n\nDirected to you:\ncheck"⟩ (by decide)
   ⟨h.1, h.2.1, h.2.2.1⟩⟩

end Tinyclaw
